import Mathlib

/-
  Verification development for the HFT market-data transport core
  (VikramAditya144/HFT_Final_Project).

  Shallow embedding of the C++ sources:
    - include/common/market_data.hpp   (MarketData record and JSON codec)
    - include/common/ring_buffer.hpp   (SPSC ring buffer)
    - include/common/shared_memory.hpp (SharedMemoryManager constructor)
    - include/common/fast_clock.hpp    (FastClock cached timestamp)

  Modelling conventions:
    - machine integers are Nat/Int with explicit wrap-around where the C++
      arithmetic wraps (size_t arithmetic is mod 2^64);
    - byte strings (char arrays, std::string contents) are List Nat;
    - C++ code that can throw is modelled in Option / explicit result types;
    - the IEEE-754 double payloads carried by MarketData are modelled as
      rationals: every claim settled here depends only on which value is
      stored and moved, never on rounding behavior of double arithmetic.
-/

namespace hft

/- ===================================================================
   MarketData (include/common/market_data.hpp)
   =================================================================== -/

/-- INSTRUMENT_MAX_LEN from market_data.hpp: the fixed byte width of the
instrument field. -/
def INSTRUMENT_MAX_LEN : Nat := 16

/-- Behavior of strncpy(dst, src, 15) on the bytes of the source C string:
bytes are copied until the first zero byte or until 15 bytes are written;
when the source ends early the remainder of the 15 bytes is zero-filled.
The source is given as the byte list of the C string (reading stops at the
first zero byte, matching strncpy). -/
def strncpy15 (src : List Nat) : List Nat :=
  let eff := (src.takeWhile (fun b => b != 0)).take 15
  eff ++ List.replicate (15 - eff.length) 0

/-- The 16 instrument bytes produced by
`strncpy(instrument, inst, INSTRUMENT_MAX_LEN - 1)` followed by
`instrument[INSTRUMENT_MAX_LEN - 1] = 0` (both constructors and from_json
use exactly this sequence). -/
def storeInstrument (src : List Nat) : List Nat :=
  strncpy15 src ++ [0]

/-- MarketData from market_data.hpp. The instrument field is the 16-byte
char array as a byte list; bid/ask doubles are modelled as rationals
(values only); padding is the explicit 24-byte padding array. -/
structure MarketData where
  instrument : List Nat
  bid : Rat
  ask : Rat
  timestamp_ns : Int
  padding : List Nat

/-- The default constructor MarketData(): all fields zero, the instrument
and padding arrays are memset to zero. -/
def MarketData.default_ctor : MarketData :=
  { instrument := List.replicate 16 0
    bid := 0
    ask := 0
    timestamp_ns := 0
    padding := List.replicate 24 0 }

/-- The parameterized constructor MarketData(inst, b, a, ts):
strncpy of the symbol with forced zero terminator, padding memset to
zero. -/
def MarketData.param_ctor (inst : List Nat) (b a : Rat) (ts : Int) : MarketData :=
  { instrument := storeInstrument inst
    bid := b
    ask := a
    timestamp_ns := ts
    padding := List.replicate 24 0 }

/-- The effective copied bytes of strncpy are at most 15. -/
lemma strncpy15_eff_length_le (src : List Nat) :
    ((src.takeWhile (fun b => b != 0)).take 15).length ≤ 15 := by
  simp [List.length_take_le 15 (src.takeWhile (fun b => b != 0))]

/-- strncpy always writes exactly 15 bytes. -/
lemma strncpy15_length (src : List Nat) : (strncpy15 src).length = 15 := by
  have h := strncpy15_eff_length_le src
  simp [strncpy15]

/-- The stored instrument field is always exactly 16 bytes. -/
lemma storeInstrument_length (src : List Nat) : (storeInstrument src).length = 16 := by
  simp [storeInstrument, strncpy15_length]

/-- Taking the while-nonzero part of a list with a zero byte appended stops
no later than the appended zero. -/
lemma takeWhile_append_zero (l : List Nat) :
    (l ++ [0]).takeWhile (fun b => b != 0) = l.takeWhile (fun b => b != 0) := by
  induction l with
  | nil => simp [List.takeWhile]
  | cons x xs ih =>
      by_cases hx : x = 0
      · subst hx; simp [List.takeWhile]
      · simp [List.takeWhile, hx, ih]

/-- Zero-filled tails of strncpy only shorten the while-nonzero part. -/
lemma takeWhile_append_replicate_zero (l : List Nat) (n : Nat) :
    (l ++ List.replicate n 0).takeWhile (fun b => b != 0)
      = l.takeWhile (fun b => b != 0) := by
  induction n with
  | zero => simp
  | succ m ih =>
      have h : l ++ List.replicate (m + 1) 0
          = (l ++ List.replicate m 0) ++ [0] := by
        simp [List.replicate_succ' m (0 : Nat), List.append_assoc]
      rw [h, takeWhile_append_zero, ih]

/-- C5: For every input string passed to the MarketData parameterized
constructor, the stored instrument field is truncated to at most 15 usable
bytes, is zero-terminated within its 16 bytes (the last byte is always
zero), and shorter inputs are zero-padded; for a default-constructed
record, the instrument and padding bytes are all zero. -/
theorem instrument_ctor_spec (inst : List Nat) (b a : Rat) (ts : Int) :
    (MarketData.param_ctor inst b a ts).instrument.length = 16 ∧
    (MarketData.param_ctor inst b a ts).instrument.getLast? = some 0 ∧
    ((MarketData.param_ctor inst b a ts).instrument.takeWhile
        (fun x => x != 0)).length ≤ 15 ∧
    ((0 : Nat) ∉ inst → inst.length ≤ 15 →
      (MarketData.param_ctor inst b a ts).instrument
        = inst ++ List.replicate (16 - inst.length) 0) ∧
    MarketData.default_ctor.instrument = List.replicate 16 0 ∧
    MarketData.default_ctor.padding = List.replicate 24 0 := by
  refine ⟨storeInstrument_length inst, ?_, ?_, ?_, rfl, rfl⟩
  · simp [MarketData.param_ctor, storeInstrument]
  · have h1 : (MarketData.param_ctor inst b a ts).instrument.takeWhile
        (fun x => x != 0)
        = (strncpy15 inst).takeWhile (fun x => x != 0) := by
      simp only [MarketData.param_ctor, storeInstrument]
      exact takeWhile_append_zero (strncpy15 inst)
    rw [h1]
    calc ((strncpy15 inst).takeWhile (fun x => x != 0)).length
        ≤ (strncpy15 inst).length :=
          (List.takeWhile_sublist (fun x => x != 0)).length_le
      _ = 15 := strncpy15_length inst
  · intro hmem hlen
    have heff : (inst.takeWhile (fun b => b != 0)).take 15 = inst := by
      have htw : inst.takeWhile (fun b => b != 0) = inst := by
        apply List.takeWhile_eq_self_iff.mpr
        intro x hx
        have : x ≠ 0 := fun h => hmem (h ▸ hx)
        simpa using this
      rw [htw]
      exact List.take_of_length_le hlen
    simp only [MarketData.param_ctor, storeInstrument, strncpy15, heff]
    have hrep : List.replicate (15 - inst.length) (0 : Nat) ++ [0]
        = List.replicate (16 - inst.length) 0 := by
      have : 16 - inst.length = (15 - inst.length) + 1 := by omega
      rw [this, List.replicate_succ' (15 - inst.length) (0 : Nat)]
    rw [List.append_assoc, hrep]

/-- Witness for C5 at a concrete input: the two-byte symbol [65, 66]
("AB") is stored zero-padded into the 16-byte field. -/
theorem instrument_ctor_spec_witness :
    (MarketData.param_ctor [65, 66] 1 2 3).instrument
      = [65, 66] ++ List.replicate 14 0 :=
  (instrument_ctor_spec [65, 66] 1 2 3).2.2.2.1 (by decide) (by decide)

/- ===================================================================
   JSON decode (MarketData::from_json, market_data.hpp)

   from_json parses with nlohmann::json::parse, indexes the four fields
   with operator[], and converts them with get<std::string>,
   get<double>, get<double>, get<int64_t>; any thrown exception is
   caught and turned into the in-band return value false.  The model
   below embeds the nlohmann value type and the exact conversion rules
   those accessors apply (3.x semantics): get on an arithmetic target
   accepts the three JSON number kinds and converts between them by
   static_cast (a float converts to int64_t by truncation toward zero),
   and rejects every non-number kind; get<std::string> accepts only
   strings; operator[] on a non-object, non-null value throws, on null
   or on a missing key it yields null.
   =================================================================== -/

/-- nlohmann::json values as produced by parse: null, boolean, the three
number kinds (signed integer, unsigned integer, floating point), string,
array, object.  Strings are byte lists; the double payload of a
number_float is modelled as a rational (the exact value carried). -/
inductive Json where
  | null : Json
  | jbool : Bool → Json
  | jint : Int → Json
  | juint : Nat → Json
  | jfloat : Rat → Json
  | jstr : List Nat → Json
  | jarr : List Json → Json
  | jobj : List (List Nat × Json) → Json

/-- The byte list of the key "instrument". -/
def kInstrument : List Nat := [105, 110, 115, 116, 114, 117, 109, 101, 110, 116]

/-- The byte list of the key "bid". -/
def kBid : List Nat := [98, 105, 100]

/-- The byte list of the key "ask". -/
def kAsk : List Nat := [97, 115, 107]

/-- The byte list of the key "timestamp_ns". -/
def kTimestamp : List Nat := [116, 105, 109, 101, 115, 116, 97, 109, 112, 95, 110, 115]

/-- First-match key lookup in an object's field list. -/
def jlookup (fields : List (List Nat × Json)) (key : List Nat) : Option Json :=
  match fields with
  | [] => none
  | (k, v) :: rest => if k = key then some v else jlookup rest key

/-- nlohmann operator[] on a non-const json j: on an object it returns the
stored value for the key, or null when the key is missing (the element is
default-inserted); on null it turns the value into an object and returns
null; on any other kind it throws type_error 305 (modelled as none). -/
def jindex (j : Json) (key : List Nat) : Option Json :=
  match j with
  | Json.jobj fields => some ((jlookup fields key).getD Json.null)
  | Json.null => some Json.null
  | _ => none

/-- get on std::string: accepts exactly the string kind, anything
else throws type_error 302 (none). -/
def getString (j : Json) : Option (List Nat) :=
  match j with
  | Json.jstr s => some s
  | _ => none

/-- get on double (= number_float_t): nlohmann converts any of the three
number kinds by static_cast and throws type_error 302 otherwise. -/
def getDouble (j : Json) : Option Rat :=
  match j with
  | Json.jfloat q => some q
  | Json.jint i => some (i : Rat)
  | Json.juint n => some (n : Rat)
  | _ => none

/-- static_cast from double to int64_t: truncation toward zero. -/
def truncToInt (q : Rat) : Int :=
  Int.tdiv q.num (Int.ofNat q.den)

/-- static_cast from uint64_t to int64_t: values at or above 2^63 wrap
around. -/
def uintToInt64 (n : Nat) : Int :=
  if n < 2 ^ 63 then (n : Int) else (n : Int) - 2 ^ 64

/-- get on int64_t (= number_integer_t): nlohmann converts any of the
three number kinds by static_cast (floats truncate toward zero) and
throws type_error 302 otherwise. -/
def getInt64 (j : Json) : Option Int :=
  match j with
  | Json.jint i => some i
  | Json.juint n => some (uintToInt64 n)
  | Json.jfloat q => some (truncToInt q)
  | _ => none

/-- Whether a json value is one of the three number kinds. -/
def isNumber (j : Json) : Bool :=
  match j with
  | Json.jint _ => true
  | Json.juint _ => true
  | Json.jfloat _ => true
  | _ => false

/-- The body of MarketData::from_json after a successful parse: index and
convert the four fields in source order, writing each into the out
record as it is obtained; the first failing step throws, which the
enclosing catch turns into (false, out-so-far).  The out record is the
in-out reference parameter. -/
def from_json_aux (j : Json) (out : MarketData) : Bool × MarketData :=
  match jindex j kInstrument with
  | none => (false, out)
  | some ji =>
    match getString ji with
    | none => (false, out)
    | some inst =>
      let out1 : MarketData := { out with instrument := storeInstrument inst }
      match jindex j kBid with
      | none => (false, out1)
      | some jb =>
        match getDouble jb with
        | none => (false, out1)
        | some b =>
          let out2 : MarketData := { out1 with bid := b }
          match jindex j kAsk with
          | none => (false, out2)
          | some ja =>
            match getDouble ja with
            | none => (false, out2)
            | some a =>
              let out3 : MarketData := { out2 with ask := a }
              match jindex j kTimestamp with
              | none => (false, out3)
              | some jt =>
                match getInt64 jt with
                | none => (false, out3)
                | some t => (true, { out3 with timestamp_ns := t })

/-- MarketData::from_json on an arbitrary input string, one step removed:
the argument is the outcome of nlohmann::json::parse on that string
(none = the parser threw, caught by the catch-all). -/
def from_json (parsed : Option Json) (out : MarketData) : Bool × MarketData :=
  match parsed with
  | none => (false, out)
  | some j => from_json_aux j out

/-- getString succeeds exactly on strings. -/
lemma getString_isSome (j : Json) : (getString j).isSome = true ↔ ∃ s, j = Json.jstr s := by
  cases j <;> simp [getString]

/-- getDouble succeeds exactly on the three number kinds. -/
lemma getDouble_isSome (j : Json) : (getDouble j).isSome = isNumber j := by
  cases j <;> simp [getDouble, isNumber]

/-- getInt64 succeeds exactly on the three number kinds. -/
lemma getInt64_isSome (j : Json) : (getInt64 j).isSome = isNumber j := by
  cases j <;> simp [getInt64, isNumber]

/-- from_json_aux returns true exactly when all four index-and-convert
steps succeed. -/
lemma from_json_aux_fst (j : Json) (out : MarketData) :
    (from_json_aux j out).1 = true ↔
      ((jindex j kInstrument).bind getString).isSome = true ∧
      ((jindex j kBid).bind getDouble).isSome = true ∧
      ((jindex j kAsk).bind getDouble).isSome = true ∧
      ((jindex j kTimestamp).bind getInt64).isSome = true := by
  unfold from_json_aux
  cases h1 : jindex j kInstrument with
  | none => simp [h1]
  | some ji =>
    cases h2 : getString ji with
    | none => simp [h1, h2]
    | some inst =>
      cases h3 : jindex j kBid with
      | none => simp [h1, h2, h3]
      | some jb =>
        cases h4 : getDouble jb with
        | none => simp [h1, h2, h3, h4]
        | some b =>
          cases h5 : jindex j kAsk with
          | none => simp [h1, h2, h3, h4, h5]
          | some ja =>
            cases h6 : getDouble ja with
            | none => simp [h1, h2, h3, h4, h5, h6]
            | some a =>
              cases h7 : jindex j kTimestamp with
              | none => simp [h1, h2, h3, h4, h5, h6, h7]
              | some jt =>
                cases h8 : getInt64 jt with
                | none => simp [h1, h2, h3, h4, h5, h6, h7, h8]
                | some t => simp [h1, h2, h3, h4, h5, h6, h7, h8]

/-- On success, the decoded timestamp is the getInt64 conversion of the
timestamp_ns field. -/
lemma from_json_aux_timestamp (j : Json) (out : MarketData)
    (h : (from_json_aux j out).1 = true) :
    ∃ jt, jindex j kTimestamp = some jt ∧
      getInt64 jt = some ((from_json_aux j out).2.timestamp_ns) := by
  unfold from_json_aux at h ⊢
  cases h1 : jindex j kInstrument with
  | none => rw [h1] at h; simp at h
  | some ji =>
    rw [h1] at h
    simp only [] at h ⊢
    cases h2 : getString ji with
    | none => rw [h2] at h; simp at h
    | some inst =>
      rw [h2] at h
      simp only [] at h ⊢
      cases h3 : jindex j kBid with
      | none => rw [h3] at h; simp at h
      | some jb =>
        rw [h3] at h
        simp only [] at h ⊢
        cases h4 : getDouble jb with
        | none => rw [h4] at h; simp at h
        | some b =>
          rw [h4] at h
          simp only [] at h ⊢
          cases h5 : jindex j kAsk with
          | none => rw [h5] at h; simp at h
          | some ja =>
            rw [h5] at h
            simp only [] at h ⊢
            cases h6 : getDouble ja with
            | none => rw [h6] at h; simp at h
            | some a =>
              rw [h6] at h
              simp only [] at h ⊢
              cases h7 : jindex j kTimestamp with
              | none => rw [h7] at h; simp at h
              | some jt =>
                rw [h7] at h
                simp only [] at h ⊢
                cases h8 : getInt64 jt with
                | none => rw [h8] at h; simp at h
                | some t =>
                  rw [h8] at h
                  simp only [] at h ⊢
                  exact ⟨jt, rfl, h8⟩

/-- On success, the decoded instrument field is the strncpy image of the
instrument string. -/
lemma from_json_aux_instrument (j : Json) (out : MarketData)
    (h : (from_json_aux j out).1 = true) :
    ∃ ji s, jindex j kInstrument = some ji ∧ getString ji = some s ∧
      (from_json_aux j out).2.instrument = storeInstrument s := by
  unfold from_json_aux at h ⊢
  cases h1 : jindex j kInstrument with
  | none => rw [h1] at h; simp at h
  | some ji =>
    rw [h1] at h
    simp only [] at h ⊢
    cases h2 : getString ji with
    | none => rw [h2] at h; simp at h
    | some inst =>
      rw [h2] at h
      simp only [] at h ⊢
      refine ⟨ji, inst, rfl, h2, ?_⟩
      cases h3 : jindex j kBid with
      | none => rfl
      | some jb =>
        simp only []
        cases h4 : getDouble jb with
        | none => rfl
        | some b =>
          simp only []
          cases h5 : jindex j kAsk with
          | none => rfl
          | some ja =>
            simp only []
            cases h6 : getDouble ja with
            | none => rfl
            | some a =>
              simp only []
              cases h7 : jindex j kTimestamp with
              | none => rfl
              | some jt =>
                simp only []
                cases h8 : getInt64 jt with
                | none => rfl
                | some t => rfl

/-- The strncpy image spelled out: at most 15 bytes taken from the
source, zero-filled up to the fixed 16 bytes. -/
lemma storeInstrument_eq (src : List Nat) :
    storeInstrument src = (src.takeWhile (fun b => b != 0)).take 15
      ++ List.replicate
          (16 - ((src.takeWhile (fun b => b != 0)).take 15).length) 0 := by
  have h := strncpy15_eff_length_le src
  simp only [storeInstrument, strncpy15]
  rw [List.append_assoc]
  congr 1
  have h16 : 16 - ((src.takeWhile (fun b => b != 0)).take 15).length
      = (15 - ((src.takeWhile (fun b => b != 0)).take 15).length) + 1 := by omega
  rw [h16, List.replicate_succ']

/-- The rational 3/2, written through the raw constructor so that it
reduces structurally. -/
def threeHalves : Rat := Rat.mk' 3 2

/-- Parse outcome of a line whose timestamp_ns field is the non-integer
JSON number 1.5 (and whose other three fields are well-formed), i.e. of
the input string
  left-brace "instrument":"A","bid":1.0,"ask":1.0,"timestamp_ns":1.5 right-brace. -/
def c6_cex_json : Json :=
  Json.jobj [(kInstrument, Json.jstr [65]),
             (kBid, Json.jfloat 1),
             (kAsk, Json.jfloat 1),
             (kTimestamp, Json.jfloat threeHalves)]

/-- C6 counterexample: the claim says from_json returns false on a
wrong-typed field, in particular on a non-integer timestamp_ns; but on a
record whose timestamp_ns is the JSON number 1.5 the code returns true,
silently truncating the timestamp to 1. -/
theorem from_json_nonint_timestamp_cex :
    (from_json (some c6_cex_json) MarketData.default_ctor).1 = true ∧
    (from_json (some c6_cex_json) MarketData.default_ctor).2.timestamp_ns = 1 := by
  constructor <;> rfl

/-- C6 (amended): for every input, from_json reports failure in-band
(the catch-all converts any exception into the return value false).  It
returns false on a parse error; and, for a parsed value, it returns true
exactly when the value is an object whose instrument field is a JSON
string and whose bid, ask and timestamp_ns fields are JSON numbers
(a missing field reads as null and is thus rejected, and a non-object
value is rejected).  Wrong numeric subtypes are not rejected: bid, ask
and timestamp_ns accept any JSON number, and a non-integer timestamp_ns
is truncated toward zero instead of refused. -/
theorem from_json_error_handling (out : MarketData) (p : Option Json) :
    from_json none out = (false, out) ∧
    ((from_json p out).1 = true ↔ ∃ fields s,
        p = some (Json.jobj fields) ∧
        (jlookup fields kInstrument).getD Json.null = Json.jstr s ∧
        isNumber ((jlookup fields kBid).getD Json.null) = true ∧
        isNumber ((jlookup fields kAsk).getD Json.null) = true ∧
        isNumber ((jlookup fields kTimestamp).getD Json.null) = true) ∧
    (∀ fields q, p = some (Json.jobj fields) →
        (jlookup fields kTimestamp).getD Json.null = Json.jfloat q →
        (from_json p out).1 = true →
        (from_json p out).2.timestamp_ns = truncToInt q) := by
  refine ⟨rfl, ?_, ?_⟩
  · cases p with
    | none => simp [from_json]
    | some j =>
      simp only [from_json]
      rw [from_json_aux_fst]
      cases j with
      | jobj fields =>
        simp only [jindex, Option.some_bind]
        constructor
        · rintro ⟨h1, h2, h3, h4⟩
          obtain ⟨s, hs⟩ := (getString_isSome _).mp h1
          rw [getDouble_isSome] at h2 h3
          rw [getInt64_isSome] at h4
          exact ⟨fields, s, rfl, hs, h2, h3, h4⟩
        · rintro ⟨fields2, s, hf, hs, hb, ha, ht⟩
          cases hf
          refine ⟨(getString_isSome _).mpr ⟨s, hs⟩, ?_, ?_, ?_⟩
          · rw [getDouble_isSome]; exact hb
          · rw [getDouble_isSome]; exact ha
          · rw [getInt64_isSome]; exact ht
      | null =>
        simp [jindex, getString]
      | jbool b => simp [jindex]
      | jint i => simp [jindex]
      | juint n => simp [jindex]
      | jfloat q => simp [jindex]
      | jstr s => simp [jindex]
      | jarr l => simp [jindex]
  · intro fields q hp hq hsucc
    subst hp
    simp only [from_json] at hsucc ⊢
    obtain ⟨jt, hjt, hget⟩ := from_json_aux_timestamp (Json.jobj fields) out hsucc
    simp only [jindex, hq] at hjt
    cases hjt
    simp only [getInt64] at hget
    exact (Option.some_injective _ hget).symm

/-- Witness for C6 (amended): a concrete well-formed object decodes to
true, and a concrete non-integer timestamp is truncated toward zero. -/
theorem from_json_error_handling_witness :
    (from_json (some c6_cex_json) MarketData.default_ctor).1 = true ∧
    (from_json (some c6_cex_json) MarketData.default_ctor).2.timestamp_ns
      = truncToInt threeHalves := by
  constructor
  · exact ((from_json_error_handling MarketData.default_ctor
      (some c6_cex_json)).2.1).mpr
      ⟨[(kInstrument, Json.jstr [65]), (kBid, Json.jfloat 1),
        (kAsk, Json.jfloat 1), (kTimestamp, Json.jfloat threeHalves)],
       [65], rfl, rfl, rfl, rfl, rfl⟩
  · exact (from_json_error_handling MarketData.default_ctor
      (some c6_cex_json)).2.2
      [(kInstrument, Json.jstr [65]), (kBid, Json.jfloat 1),
       (kAsk, Json.jfloat 1), (kTimestamp, Json.jfloat threeHalves)]
      threeHalves rfl rfl (by rfl)

/-- Input for the C10 witness: a well-formed object whose instrument
string is 16 bytes long. -/
def c10_json : Json :=
  Json.jobj [(kInstrument, Json.jstr (List.replicate 16 65)),
             (kBid, Json.jint 1),
             (kAsk, Json.jint 2),
             (kTimestamp, Json.jint 3)]

/-- C10: when from_json succeeds on an object whose instrument string is
longer than 15 bytes, the fixed 16-byte field does not overflow: at most
15 bytes of the string are copied and the 16th byte is forced to zero,
so the decoded instrument is always zero-terminated within 16 bytes. -/
theorem from_json_instrument_safe (j : Json) (m m2 : MarketData) (s : List Nat)
    (hsucc : from_json_aux j m = (true, m2))
    (hfield : jindex j kInstrument = some (Json.jstr s))
    (_hlen : 15 < s.length) :
    m2.instrument.length = 16 ∧
    m2.instrument = (s.takeWhile (fun b => b != 0)).take 15
      ++ List.replicate
          (16 - ((s.takeWhile (fun b => b != 0)).take 15).length) 0 ∧
    m2.instrument.getLast? = some 0 := by
  have h1 : (from_json_aux j m).1 = true := by rw [hsucc]
  obtain ⟨ji, s2, hji, hgs, hinstr⟩ := from_json_aux_instrument j m h1
  rw [hfield] at hji
  cases hji
  simp only [getString, Option.some.injEq] at hgs
  subst hgs
  have hm2 : m2.instrument = storeInstrument s := by
    rw [hsucc] at hinstr
    exact hinstr
  refine ⟨by rw [hm2]; exact storeInstrument_length s, ?_, ?_⟩
  · rw [hm2, storeInstrument_eq]
  · rw [hm2]
    simp [storeInstrument]

/-- Witness for C10: decoding the 16-byte instrument string of 'A' bytes
stores its first 15 bytes plus a forced zero terminator. -/
theorem from_json_instrument_safe_witness :
    (from_json_aux c10_json MarketData.default_ctor).2.instrument.length = 16 ∧
    (from_json_aux c10_json MarketData.default_ctor).2.instrument
      = ((List.replicate 16 65).takeWhile (fun b => b != 0)).take 15
        ++ List.replicate
            (16 - (((List.replicate 16 65).takeWhile
                (fun b => b != 0)).take 15).length) 0 ∧
    (from_json_aux c10_json MarketData.default_ctor).2.instrument.getLast?
      = some 0 :=
  from_json_instrument_safe c10_json MarketData.default_ctor
    (from_json_aux c10_json MarketData.default_ctor).2
    (List.replicate 16 65) rfl rfl (by decide)

/- ===================================================================
   SPSC ring buffer (include/common/ring_buffer.hpp)

   The two indices are size_t values (the C++ arithmetic on them wraps
   mod 2^64); the slot array is modelled as a total map from the raw
   size_t index used by the code, so that staying inside the 1024 slots
   is a provable property (claim C9) rather than a typing assumption.
   The SPSC interleavings the code admits are exactly: any sequence of
   try_write, try_read and const inspector calls, each of which is an
   atomic step of this model (the acquire and release fences order the
   slot bytes against the index publication; the claims here concern
   the sequential functional behavior of those steps).
   =================================================================== -/

/-- RING_BUFFER_SIZE from ring_buffer.hpp. -/
def RING_BUFFER_SIZE : Nat := 1024

/-- 2^64, the modulus of size_t arithmetic. -/
def SIZE_T_MOD : Nat := 18446744073709551616

/-- The bit mask x AND (RING_BUFFER_SIZE - 1) used for all index
wrap-around. -/
def mask (x : Nat) : Nat := x &&& (RING_BUFFER_SIZE - 1)

/-- size_t subtraction a - b, wrapping mod 2^64. -/
def size_t_sub (a b : Nat) : Nat :=
  (a + SIZE_T_MOD - b % SIZE_T_MOD) % SIZE_T_MOD

/-- The mask is a remainder: RING_BUFFER_SIZE is the power of two 2^10,
so AND with RING_BUFFER_SIZE - 1 is mod RING_BUFFER_SIZE. -/
lemma mask_eq_mod (x : Nat) : mask x = x % 1024 := by
  have h : RING_BUFFER_SIZE - 1 = 2 ^ 10 - 1 := by norm_num [RING_BUFFER_SIZE]
  rw [mask, h, Nat.and_pow_two_sub_one_eq_mod]

/-- RingBuffer state: the two atomic size_t indices and the slot array
(a map from raw index to the MarketData stored there). -/
structure RingBuffer where
  write_idx : Nat
  read_idx : Nat
  buffer : Nat → MarketData

/-- The default-constructed RingBuffer: both indices zero, every slot a
default-constructed MarketData. -/
def RingBuffer.init : RingBuffer :=
  { write_idx := 0, read_idx := 0, buffer := fun _ => MarketData.default_ctor }

/-- RingBuffer::try_write: compute the next write index, return false
without any store when the buffer is full (next write position equals
the read index), otherwise store the record at the current write index
and publish the new write index. -/
def RingBuffer.try_write (s : RingBuffer) (data : MarketData) : Bool × RingBuffer :=
  let current_write := s.write_idx
  let next_write := mask (current_write + 1)
  let current_read := s.read_idx
  if next_write = current_read then
    (false, s)
  else
    (true, { write_idx := next_write, read_idx := s.read_idx,
             buffer := Function.update s.buffer current_write data })

/-- RingBuffer::try_read: return false without any store when the
buffer is empty (read index equals write index) leaving the out
parameter untouched, otherwise copy the slot at the current read index
into the out parameter and publish the next read index.  The result is
(return value, out parameter after the call, buffer state after the
call). -/
def RingBuffer.try_read (s : RingBuffer) (data : MarketData) :
    Bool × MarketData × RingBuffer :=
  let current_read := s.read_idx
  let current_write := s.write_idx
  if current_read = current_write then
    (false, data, s)
  else
    (true, s.buffer current_read,
     { write_idx := s.write_idx, read_idx := mask (current_read + 1),
       buffer := s.buffer })

/-- RingBuffer::is_full. -/
def RingBuffer.is_full (s : RingBuffer) : Bool :=
  mask (s.write_idx + 1) == s.read_idx

/-- RingBuffer::available_for_write: (read_idx - write_idx - 1) masked,
in size_t arithmetic. -/
def RingBuffer.available_for_write (s : RingBuffer) : Nat :=
  mask (size_t_sub (size_t_sub s.read_idx s.write_idx) 1)

/-- RingBuffer::is_empty. -/
def RingBuffer.is_empty (s : RingBuffer) : Bool :=
  s.read_idx == s.write_idx

/-- RingBuffer::available_for_read: (write_idx - read_idx) masked, in
size_t arithmetic. -/
def RingBuffer.available_for_read (s : RingBuffer) : Nat :=
  mask (size_t_sub s.write_idx s.read_idx)

/-- RingBuffer::capacity: one slot is kept empty to distinguish full
from empty. -/
def RingBuffer.capacity : Nat := RING_BUFFER_SIZE - 1

/-- The states reachable from a freshly constructed RingBuffer by any
sequence of try_write and try_read calls (the inspectors are const and
do not change state). -/
inductive RingBuffer.Reachable : RingBuffer → Prop where
  | init : RingBuffer.Reachable RingBuffer.init
  | write {s : RingBuffer} (d : MarketData) :
      RingBuffer.Reachable s → RingBuffer.Reachable (s.try_write d).2
  | read {s : RingBuffer} (d : MarketData) :
      RingBuffer.Reachable s → RingBuffer.Reachable (s.try_read d).2.2

/-- The index invariant: both stored indices stay below the array
size. -/
def RingBuffer.inv (s : RingBuffer) : Prop :=
  s.write_idx < RING_BUFFER_SIZE ∧ s.read_idx < RING_BUFFER_SIZE

lemma mask_lt (x : Nat) : mask x < 1024 := by
  rw [mask_eq_mod]; omega

lemma inv_init : RingBuffer.init.inv := by
  constructor <;> norm_num [RingBuffer.init, RING_BUFFER_SIZE]

lemma inv_try_write (s : RingBuffer) (d : MarketData) (h : s.inv) :
    (s.try_write d).2.inv := by
  unfold RingBuffer.try_write
  dsimp only
  split
  · exact h
  · exact ⟨by simpa [RING_BUFFER_SIZE] using mask_lt (s.write_idx + 1), h.2⟩

lemma inv_try_read (s : RingBuffer) (d : MarketData) (h : s.inv) :
    (s.try_read d).2.2.inv := by
  unfold RingBuffer.try_read
  dsimp only
  split
  · exact h
  · exact ⟨h.1, by simpa [RING_BUFFER_SIZE] using mask_lt (s.read_idx + 1)⟩

lemma inv_of_reachable {s : RingBuffer} (h : s.Reachable) : s.inv := by
  induction h with
  | init => exact inv_init
  | write d _ ih => exact inv_try_write _ d ih
  | read d _ ih => exact inv_try_read _ d ih

/-- available_for_read in plain mod-1024 arithmetic, valid under the
index invariant. -/
lemma afr_formula (s : RingBuffer) (h : s.inv) :
    s.available_for_read = (s.write_idx + 1024 - s.read_idx) % 1024 := by
  obtain ⟨hw, hr⟩ := h
  simp only [RING_BUFFER_SIZE] at hw hr
  simp only [RingBuffer.available_for_read, size_t_sub, mask_eq_mod, SIZE_T_MOD]
  omega

/-- available_for_write in plain mod-1024 arithmetic, valid under the
index invariant. -/
lemma afw_formula (s : RingBuffer) (h : s.inv) :
    s.available_for_write = (s.read_idx + 1023 - s.write_idx) % 1024 := by
  obtain ⟨hw, hr⟩ := h
  simp only [RING_BUFFER_SIZE] at hw hr
  simp only [RingBuffer.available_for_write, size_t_sub, mask_eq_mod, SIZE_T_MOD]
  omega

/-- The abstract queue represented by a ring state: the unread slots in
read order. -/
def RingBuffer.contents (s : RingBuffer) : List MarketData :=
  (List.range s.available_for_read).map
    (fun i => s.buffer ((s.read_idx + i) % 1024))

lemma contents_length (s : RingBuffer) :
    s.contents.length = s.available_for_read := by
  simp [RingBuffer.contents]

lemma afr_le (s : RingBuffer) (h : s.inv) : s.available_for_read ≤ 1023 := by
  rw [afr_formula s h]
  omega

/-- A full ring (1023 unread slots) rejects the write and keeps the
state byte-identical. -/
lemma try_write_full (s : RingBuffer) (d : MarketData) (h : s.inv)
    (hfull : s.available_for_read = 1023) : s.try_write d = (false, s) := by
  obtain ⟨hw, hr⟩ := h
  simp only [RING_BUFFER_SIZE] at hw hr
  have hafr := afr_formula s ⟨by simpa [RING_BUFFER_SIZE], by simpa [RING_BUFFER_SIZE]⟩
  have hm : mask (s.write_idx + 1) = s.read_idx := by
    rw [mask_eq_mod]
    rw [hafr] at hfull
    omega
  unfold RingBuffer.try_write
  dsimp only
  rw [if_pos hm]

/-- A non-full ring accepts the write, keeps the invariant, and appends
the record to the abstract queue. -/
lemma try_write_ok (s : RingBuffer) (d : MarketData) (h : s.inv)
    (hroom : s.available_for_read < 1023) :
    (s.try_write d).1 = true ∧ (s.try_write d).2.inv ∧
    (s.try_write d).2.contents = s.contents ++ [d] := by
  obtain ⟨hw, hr⟩ := h
  simp only [RING_BUFFER_SIZE] at hw hr
  have hafr := afr_formula s ⟨by simpa [RING_BUFFER_SIZE], by simpa [RING_BUFFER_SIZE]⟩
  rw [hafr] at hroom
  have hne : mask (s.write_idx + 1) ≠ s.read_idx := by
    rw [mask_eq_mod]
    omega
  have hinv2 : (RingBuffer.mk (mask (s.write_idx + 1)) s.read_idx
      (Function.update s.buffer s.write_idx d)).inv := by
    exact ⟨by simpa [RING_BUFFER_SIZE] using mask_lt (s.write_idx + 1),
           by simpa [RING_BUFFER_SIZE] using hr⟩
  have hstep : s.try_write d = (true, RingBuffer.mk (mask (s.write_idx + 1))
      s.read_idx (Function.update s.buffer s.write_idx d)) := by
    unfold RingBuffer.try_write
    dsimp only
    rw [if_neg hne]
  rw [hstep]
  refine ⟨rfl, hinv2, ?_⟩
  have hafr2 : (RingBuffer.mk (mask (s.write_idx + 1)) s.read_idx
      (Function.update s.buffer s.write_idx d)).available_for_read
      = s.available_for_read + 1 := by
    rw [afr_formula _ hinv2, hafr]
    dsimp only
    rw [mask_eq_mod]
    omega
  simp only [RingBuffer.contents, hafr2]
  rw [List.range_succ, List.map_append, List.map_cons, List.map_nil]
  congr 1
  · apply List.map_congr_left
    intro i hi
    simp only [List.mem_range] at hi
    have hidx : (s.read_idx + i) % 1024 ≠ s.write_idx := by
      rw [hafr] at hi
      omega
    rw [Function.update_noteq hidx]
  · have hidx : (s.read_idx + s.available_for_read) % 1024 = s.write_idx := by
      rw [hafr]
      omega
    rw [hidx, Function.update_same]

/-- An empty ring rejects the read, leaving both the state and the out
parameter unchanged. -/
lemma try_read_empty (s : RingBuffer) (d0 : MarketData) (h : s.inv)
    (hempty : s.available_for_read = 0) : s.try_read d0 = (false, d0, s) := by
  obtain ⟨hw, hr⟩ := h
  simp only [RING_BUFFER_SIZE] at hw hr
  have hafr := afr_formula s ⟨by simpa [RING_BUFFER_SIZE], by simpa [RING_BUFFER_SIZE]⟩
  have heq : s.read_idx = s.write_idx := by
    rw [hafr] at hempty
    omega
  unfold RingBuffer.try_read
  dsimp only
  rw [if_pos heq]

/-- A non-empty ring serves the read: the head of the abstract queue is
returned and removed. -/
lemma try_read_ok (s : RingBuffer) (d0 : MarketData) (h : s.inv)
    (hne : 0 < s.available_for_read) :
    s.try_read d0 = (true, s.buffer s.read_idx,
      RingBuffer.mk s.write_idx (mask (s.read_idx + 1)) s.buffer) ∧
    (RingBuffer.mk s.write_idx (mask (s.read_idx + 1)) s.buffer).inv ∧
    s.contents = s.buffer s.read_idx
      :: (RingBuffer.mk s.write_idx (mask (s.read_idx + 1)) s.buffer).contents := by
  obtain ⟨hw, hr⟩ := h
  simp only [RING_BUFFER_SIZE] at hw hr
  have hafr := afr_formula s ⟨by simpa [RING_BUFFER_SIZE], by simpa [RING_BUFFER_SIZE]⟩
  have hneq : s.read_idx ≠ s.write_idx := by
    rw [hafr] at hne
    omega
  have hinv2 : (RingBuffer.mk s.write_idx (mask (s.read_idx + 1)) s.buffer).inv := by
    exact ⟨by simpa [RING_BUFFER_SIZE] using hw,
           by simpa [RING_BUFFER_SIZE] using mask_lt (s.read_idx + 1)⟩
  refine ⟨?_, hinv2, ?_⟩
  · unfold RingBuffer.try_read
    dsimp only
    rw [if_neg hneq]
  · have hafr2 : (RingBuffer.mk s.write_idx (mask (s.read_idx + 1))
        s.buffer).available_for_read + 1 = s.available_for_read := by
      rw [afr_formula _ hinv2, hafr]
      dsimp only
      rw [mask_eq_mod]
      omega
    simp only [RingBuffer.contents]
    rw [← hafr2, List.range_succ_eq_map, List.map_cons, List.map_map]
    congr 1
    · congr 1
      omega
    · apply List.map_congr_left
      intro i hi
      simp only [Function.comp_apply]
      congr 1
      rw [mask_eq_mod]
      omega

/-- A sequence of try_write calls that must all succeed: returns the
resulting state, or none as soon as one call returns false. -/
def pushList : RingBuffer → List MarketData → Option RingBuffer
  | s, [] => some s
  | s, d :: rest =>
    match s.try_write d with
    | (true, s2) => pushList s2 rest
    | (false, _) => none

/-- A sequence of n try_read calls that must all succeed: returns the
popped records in order and the resulting state, or none as soon as one
call returns false.  d0 is the initial value of the caller's out
variable. -/
def popList : RingBuffer → MarketData → Nat → Option (List MarketData × RingBuffer)
  | s, _, 0 => some ([], s)
  | s, d0, n + 1 =>
    match s.try_read d0 with
    | (true, d, s2) =>
      match popList s2 d0 n with
      | some (l, t) => some (d :: l, t)
      | none => none
    | (false, _, _) => none

/-- Every successful pushList run appends exactly its argument list to
the abstract queue. -/
lemma pushList_sound : ∀ (L : List MarketData) (s s2 : RingBuffer), s.inv →
    pushList s L = some s2 → s2.inv ∧ s2.contents = s.contents ++ L := by
  intro L
  induction L with
  | nil =>
    intro s s2 h he
    simp only [pushList, Option.some.injEq] at he
    subst he
    exact ⟨h, by simp⟩
  | cons d rest ih =>
    intro s s2 h he
    unfold pushList at he
    cases hw : s.try_write d with
    | mk b s1 =>
      rw [hw] at he
      cases b with
      | false => simp at he
      | true =>
        simp only [] at he
        have hroom : s.available_for_read < 1023 := by
          rcases Nat.lt_or_ge s.available_for_read 1023 with h1 | h2
          · exact h1
          · have hfull : s.available_for_read = 1023 :=
              le_antisymm (afr_le s h) h2
            have := try_write_full s d h hfull
            rw [this] at hw
            simp at hw
        obtain ⟨_, hinv1, hc⟩ := try_write_ok s d h hroom
        rw [hw] at hinv1 hc
        obtain ⟨hi2, hc2⟩ := ih s1 s2 hinv1 he
        refine ⟨hi2, ?_⟩
        rw [hc2, hc, List.append_assoc]
        rfl

/-- When there is room for the whole list, pushList succeeds. -/
lemma pushList_total : ∀ (L : List MarketData) (s : RingBuffer), s.inv →
    s.contents.length + L.length ≤ 1023 →
    ∃ s2, pushList s L = some s2 ∧ s2.inv ∧ s2.contents = s.contents ++ L := by
  intro L
  induction L with
  | nil => intro s h _; exact ⟨s, rfl, h, by simp⟩
  | cons d rest ih =>
    intro s h hlen
    have hroom : s.available_for_read < 1023 := by
      rw [← contents_length]
      simp only [List.length_cons] at hlen
      omega
    obtain ⟨hb, hinv1, hc⟩ := try_write_ok s d h hroom
    have hw : s.try_write d = (true, (s.try_write d).2) := by
      cases hsd : s.try_write d with
      | mk b s1 => rw [hsd] at hb; simp at hb; rw [hb]
    obtain ⟨s2, hp, hi2, hc2⟩ := ih (s.try_write d).2 hinv1 (by
      rw [contents_length] at hlen ⊢
      have : (s.try_write d).2.contents.length = s.contents.length + 1 := by
        rw [hc]; simp
      rw [contents_length, contents_length] at this
      simp only [List.length_cons] at hlen
      omega)
    refine ⟨s2, ?_, hi2, ?_⟩
    · unfold pushList
      rw [hw]
      exact hp
    · rw [hc2, hc, List.append_assoc]
      rfl

/-- Popping exactly the queue length drains the ring and returns the
whole abstract queue in order. -/
lemma popList_all : ∀ (n : Nat) (s : RingBuffer) (d0 : MarketData), s.inv →
    s.contents.length = n →
    ∃ t, popList s d0 n = some (s.contents, t) ∧ t.inv ∧ t.contents = [] := by
  intro n
  induction n with
  | zero =>
    intro s d0 h hlen
    have hnil : s.contents = [] := List.length_eq_zero.mp hlen
    exact ⟨s, by rw [hnil]; rfl, h, hnil⟩
  | succ n ih =>
    intro s d0 h hlen
    have hne : 0 < s.available_for_read := by
      rw [← contents_length]
      omega
    obtain ⟨hstep, hinv2, hc⟩ := try_read_ok s d0 h hne
    have hlen2 : (RingBuffer.mk s.write_idx (mask (s.read_idx + 1))
        s.buffer).contents.length = n := by
      have := congrArg List.length hc
      simp only [List.length_cons] at this
      omega
    obtain ⟨t, hpop, hti, htc⟩ := ih _ d0 hinv2 hlen2
    refine ⟨t, ?_, hti, htc⟩
    unfold popList
    rw [hstep]
    simp only []
    rw [hpop]
    simp only []
    rw [hc]

/-- The freshly constructed ring has an empty abstract queue. -/
lemma init_contents : RingBuffer.init.contents = [] := by
  have h00 : RingBuffer.init.available_for_read = 0 := by decide
  simp [RingBuffer.contents, h00]

/-- C1: for every sequence of successful try_write calls with records
R_1..R_k on a ring starting empty, followed by k try_read calls, the k
reads all succeed and the popped records equal R_1..R_k in order. -/
theorem ring_fifo (L : List MarketData) (s : RingBuffer) (d0 : MarketData)
    (h : pushList RingBuffer.init L = some s) :
    ∃ t, popList s d0 L.length = some (L, t) := by
  obtain ⟨hinv, hc⟩ := pushList_sound L RingBuffer.init s inv_init h
  rw [init_contents, List.nil_append] at hc
  obtain ⟨t, hpop, _, _⟩ := popList_all L.length s d0 hinv (by rw [hc])
  rw [hc] at hpop
  exact ⟨t, hpop⟩

/-- Witness for C1: push one record into the empty ring, then one pop
returns exactly that record. -/
theorem ring_fifo_witness :
    ∃ t, popList ((RingBuffer.init.try_write MarketData.default_ctor).2)
      MarketData.default_ctor 1 = some ([MarketData.default_ctor], t) :=
  ring_fifo [MarketData.default_ctor]
    ((RingBuffer.init.try_write MarketData.default_ctor).2)
    MarketData.default_ctor rfl

/-- C2: 1023 successive pushes into the empty ring all succeed; the
1024th try_write returns false and leaves the state (indices and all
slots) unchanged; after draining the ring with 1023 successful pops
(which return the pushed records), try_read returns false and leaves
the state and the out parameter unchanged.  Both rejections are the
in-band boolean return value: the model functions are total, mirroring
the noexcept total C++ code, so full and empty are never surfaced as an
error or exception. -/
theorem ring_capacity_spec (L : List MarketData) (hL : L.length = 1023)
    (d d0 : MarketData) :
    ∃ s, pushList RingBuffer.init L = some s ∧
      s.try_write d = (false, s) ∧
      ∃ t, popList s d0 1023 = some (L, t) ∧
        t.try_read d0 = (false, d0, t) := by
  obtain ⟨s, hpush, hinv, hc⟩ := pushList_total L RingBuffer.init inv_init (by
    rw [init_contents]
    simp [hL])
  rw [init_contents, List.nil_append] at hc
  have hafr : s.available_for_read = 1023 := by
    rw [← contents_length, hc, hL]
  refine ⟨s, hpush, try_write_full s d hinv hafr, ?_⟩
  obtain ⟨t, hpop, hti, htc⟩ := popList_all 1023 s d0 hinv (by rw [hc, hL])
  rw [hc] at hpop
  have hta : t.available_for_read = 0 := by
    rw [← contents_length, htc]
    rfl
  exact ⟨t, hpop, try_read_empty t d0 hti hta⟩

/-- Witness for C2 at the concrete list of 1023 default records. -/
theorem ring_capacity_spec_witness :
    ∃ s, pushList RingBuffer.init
        (List.replicate 1023 MarketData.default_ctor) = some s ∧
      s.try_write MarketData.default_ctor = (false, s) ∧
      ∃ t, popList s MarketData.default_ctor 1023
          = some (List.replicate 1023 MarketData.default_ctor, t) ∧
        t.try_read MarketData.default_ctor
          = (false, MarketData.default_ctor, t) :=
  ring_capacity_spec (List.replicate 1023 MarketData.default_ctor)
    (List.length_replicate 1023 MarketData.default_ctor)
    MarketData.default_ctor MarketData.default_ctor

/-- C4: in every reachable ring state the two inspector counters sum to
N - 1 (N = 1024, which is also capacity()), is_empty holds exactly when
available_for_read is zero, and is_full holds exactly when
available_for_write is zero. -/
theorem ring_inspector_identity (s : RingBuffer) (h : s.Reachable) :
    s.available_for_read + s.available_for_write = RING_BUFFER_SIZE - 1 ∧
    (s.is_empty = true ↔ s.available_for_read = 0) ∧
    (s.is_full = true ↔ s.available_for_write = 0) ∧
    RingBuffer.capacity = RING_BUFFER_SIZE - 1 := by
  have hinv := inv_of_reachable h
  obtain ⟨hw, hr⟩ := hinv
  simp only [RING_BUFFER_SIZE] at hw hr
  have h1 := afr_formula s (inv_of_reachable h)
  have h2 := afw_formula s (inv_of_reachable h)
  refine ⟨?_, ?_, ?_, rfl⟩
  · rw [h1, h2]
    simp only [RING_BUFFER_SIZE]
    omega
  · rw [RingBuffer.is_empty, beq_iff_eq, h1]
    omega
  · rw [RingBuffer.is_full, beq_iff_eq, mask_eq_mod, h2]
    omega

/-- Witness for C4 at the reachable initial state. -/
theorem ring_inspector_identity_witness :
    RingBuffer.init.available_for_read + RingBuffer.init.available_for_write
      = RING_BUFFER_SIZE - 1 ∧
    (RingBuffer.init.is_empty = true ↔
      RingBuffer.init.available_for_read = 0) ∧
    (RingBuffer.init.is_full = true ↔
      RingBuffer.init.available_for_write = 0) ∧
    RingBuffer.capacity = RING_BUFFER_SIZE - 1 :=
  ring_inspector_identity RingBuffer.init RingBuffer.Reachable.init

/-- C9: in every state reachable from a freshly constructed RingBuffer
by any sequence of try_write, try_read and inspector calls, both stored
indices are strictly below RING_BUFFER_SIZE, so the slot accesses
buffer[current_write] and buffer[current_read] performed by try_write
and try_read stay inside the 1024-slot array. -/
theorem ring_index_bounds (s : RingBuffer) (h : s.Reachable) :
    s.write_idx < RING_BUFFER_SIZE ∧ s.read_idx < RING_BUFFER_SIZE :=
  inv_of_reachable h

/-- Witness for C9 at the reachable initial state. -/
theorem ring_index_bounds_witness :
    RingBuffer.init.write_idx < RING_BUFFER_SIZE ∧
    RingBuffer.init.read_idx < RING_BUFFER_SIZE :=
  ring_index_bounds RingBuffer.init RingBuffer.Reachable.init

/- ===================================================================
   SharedMemoryManager constructor (include/common/shared_memory.hpp)

   The constructor's own control flow is embedded step by step; the OS
   calls it makes (shm_open, fstat, ftruncate, mmap) are oracles whose
   outcomes are supplied by an environment value.  The OS resources the
   constructor can own are a single open descriptor and, in create
   mode, the named object opened with O_CREAT; the model threads an
   explicit resource ledger through the code and applies close and
   shm_unlink exactly where the C++ does, so that the cleanup-on-error
   behavior is a provable property of the embedded control flow.
   =================================================================== -/

/-- Outcomes of the OS calls the constructor can make. -/
structure OsEnv where
  shm_open_create : Option Nat
  fstat_size : Option Nat
  ftruncate_ok : Bool
  shm_open_attach : Option Nat
  mmap_ok : Bool

/-- The OS resources a constructor run may own: an open descriptor and
(for a creator) the named object it opened with O_CREAT and has not
unlinked. -/
structure OsResources where
  fd_open : Bool
  name_linked : Bool

/-- close(shm_fd_). -/
def close_fd (r : OsResources) : OsResources :=
  { r with fd_open := false }

/-- shm_unlink(name_). -/
def unlink_name (r : OsResources) : OsResources :=
  { r with name_linked := false }

/-- The state of a successfully constructed SharedMemoryManager. -/
structure ShmHandle where
  shm_fd : Nat
  size_ : Nat
  name_ : String
  is_creator : Bool

/-- Result of running the constructor: a constructed handle, or the
message of the thrown runtime_error; in both cases together with the
ledger of OS resources still held when control leaves the
constructor. -/
inductive ShmResult where
  | ok : ShmHandle → OsResources → ShmResult
  | err : String → OsResources → ShmResult

/-- SharedMemoryManager::SharedMemoryManager(name, size, create):
validates the arguments, stores "/" + name, then in create mode opens
or creates the object, fstats it, sizes it with ftruncate only when its
current size is zero, and maps it; in attach mode opens the existing
object read-only and maps it.  Every failing step closes the descriptor
and (in create mode) unlinks the name before throwing. -/
def shm_ctor (name : String) (size : Nat) (create : Bool) (env : OsEnv) :
    ShmResult :=
  let name2 := "/" ++ name
  let res0 : OsResources := { fd_open := false, name_linked := false }
  if name = "" then
    ShmResult.err "Shared memory name cannot be empty" res0
  else if size = 0 then
    ShmResult.err "Shared memory size cannot be zero" res0
  else if create then
    match env.shm_open_create with
    | none => ShmResult.err "Failed to create shared memory segment" res0
    | some fd =>
      let res1 : OsResources := { fd_open := true, name_linked := true }
      match env.fstat_size with
      | none =>
        ShmResult.err "Failed to get shared memory stats"
          (unlink_name (close_fd res1))
      | some st_size =>
        if st_size = 0 && !env.ftruncate_ok then
          ShmResult.err "Failed to set shared memory size"
            (unlink_name (close_fd res1))
        else if !env.mmap_ok then
          ShmResult.err "Failed to map shared memory"
            (unlink_name (close_fd res1))
        else
          ShmResult.ok
            { shm_fd := fd, size_ := size, name_ := name2, is_creator := true }
            res1
  else
    match env.shm_open_attach with
    | none => ShmResult.err "Failed to open existing shared memory segment" res0
    | some fd =>
      let res1 : OsResources := { fd_open := true, name_linked := false }
      if !env.mmap_ok then
        ShmResult.err "Failed to map shared memory" (close_fd res1)
      else
        ShmResult.ok
          { shm_fd := fd, size_ := size, name_ := name2, is_creator := false }
          res1

/-- C7: SharedMemoryManager construction throws when the name is empty
or the size is zero; every successfully constructed handle stores the
input name prefixed with a slash; and whenever any construction step
fails, every partial resource acquired so far (the open descriptor,
and for a creator the named object) has been released when the error
surfaces, so a failed construction leaves no owned OS state. -/
theorem shm_ctor_spec (name : String) (size : Nat) (create : Bool)
    (env : OsEnv) :
    (name = "" → ∃ m os, shm_ctor name size create env = ShmResult.err m os) ∧
    (size = 0 → ∃ m os, shm_ctor name size create env = ShmResult.err m os) ∧
    (∀ h os, shm_ctor name size create env = ShmResult.ok h os →
      h.name_ = "/" ++ name) ∧
    (∀ m os, shm_ctor name size create env = ShmResult.err m os →
      os.fd_open = false ∧ os.name_linked = false) := by
  unfold shm_ctor
  dsimp only
  refine ⟨?_, ?_, ?_, ?_⟩
  · intro hname
    rw [if_pos hname]
    exact ⟨_, _, rfl⟩
  · intro hsize
    by_cases hname : name = ""
    · rw [if_pos hname]
      exact ⟨_, _, rfl⟩
    · rw [if_neg hname, if_pos hsize]
      exact ⟨_, _, rfl⟩
  · intro h os he
    by_cases hname : name = ""
    · rw [if_pos hname] at he
      exact absurd he (by simp)
    · rw [if_neg hname] at he
      by_cases hsize : size = 0
      · rw [if_pos hsize] at he
        exact absurd he (by simp)
      · rw [if_neg hsize] at he
        cases create with
        | true =>
          rw [if_pos rfl] at he
          cases ho : env.shm_open_create with
          | none => rw [ho] at he; exact absurd he (by simp)
          | some fd =>
            rw [ho] at he
            simp only [] at he
            cases hf : env.fstat_size with
            | none => rw [hf] at he; exact absurd he (by simp)
            | some st_size =>
              rw [hf] at he
              simp only [] at he
              split at he
              · exact absurd he (by simp)
              · split at he
                · exact absurd he (by simp)
                · cases he
                  rfl
        | false =>
          rw [if_neg (by simp)] at he
          cases ho : env.shm_open_attach with
          | none => rw [ho] at he; exact absurd he (by simp)
          | some fd =>
            rw [ho] at he
            simp only [] at he
            split at he
            · exact absurd he (by simp)
            · cases he
              rfl
  · intro m os he
    by_cases hname : name = ""
    · rw [if_pos hname] at he
      cases he
      exact ⟨rfl, rfl⟩
    · rw [if_neg hname] at he
      by_cases hsize : size = 0
      · rw [if_pos hsize] at he
        cases he
        exact ⟨rfl, rfl⟩
      · rw [if_neg hsize] at he
        cases create with
        | true =>
          rw [if_pos rfl] at he
          cases ho : env.shm_open_create with
          | none =>
            rw [ho] at he
            cases he
            exact ⟨rfl, rfl⟩
          | some fd =>
            rw [ho] at he
            simp only [] at he
            cases hf : env.fstat_size with
            | none =>
              rw [hf] at he
              cases he
              exact ⟨rfl, rfl⟩
            | some st_size =>
              rw [hf] at he
              simp only [] at he
              split at he
              · cases he
                exact ⟨rfl, rfl⟩
              · split at he
                · cases he
                  exact ⟨rfl, rfl⟩
                · exact absurd he (by simp)
        | false =>
          rw [if_neg (by simp)] at he
          cases ho : env.shm_open_attach with
          | none =>
            rw [ho] at he
            cases he
            exact ⟨rfl, rfl⟩
          | some fd =>
            rw [ho] at he
            simp only [] at he
            split at he
            · cases he
              exact ⟨rfl, rfl⟩
            · exact absurd he (by simp)

/-- A concrete all-succeeding OS environment. -/
def env_ok : OsEnv :=
  { shm_open_create := some 3, fstat_size := some 0, ftruncate_ok := true,
    shm_open_attach := some 3, mmap_ok := true }

/-- A concrete OS environment in which mmap fails. -/
def env_mmap_fail : OsEnv :=
  { shm_open_create := some 3, fstat_size := some 0, ftruncate_ok := true,
    shm_open_attach := some 3, mmap_ok := false }

/-- Witness for C7 at concrete inputs: size zero is rejected for a
concrete name and environment; a concrete successful construction
stores the slash-prefixed name; and a concrete mmap failure surfaces
with descriptor closed and name unlinked. -/
theorem shm_ctor_spec_witness :
    (∃ m os, shm_ctor "shm_test" 0 true env_ok = ShmResult.err m os) ∧
    (∀ h os, shm_ctor "shm_test" 64 true env_ok = ShmResult.ok h os →
      h.name_ = "/" ++ "shm_test") ∧
    (∀ m os, shm_ctor "shm_test" 64 true env_mmap_fail = ShmResult.err m os →
      os.fd_open = false ∧ os.name_linked = false) :=
  ⟨(shm_ctor_spec "shm_test" 0 true env_ok).2.1 rfl,
   (shm_ctor_spec "shm_test" 64 true env_ok).2.2.1,
   (shm_ctor_spec "shm_test" 64 true env_mmap_fail).2.2.2⟩

/- ===================================================================
   FastClock (include/common/fast_clock.hpp)

   The constructor samples the OS high-resolution clock once and stores
   it; update_loop repeatedly samples the clock and stores the reading
   into the one atomic cell read by now().  The OS clock is modelled as
   a function from sample ordinal to reading; the spec describes it as
   a monotonic high-resolution clock.  Because now() and the refresher
   exchange a single atomic variable, C++ coherence guarantees that a
   later now() cannot observe an earlier write in modification order,
   and the writer's stores occur in its program order; the sequential
   trace below (k refresher stores, a read observing the state after
   any later store count) is therefore a faithful model of two
   successive now() calls.
   =================================================================== -/

/-- FastClock state: the cached_time_ns cell plus the number of clock
samples taken so far. -/
structure FastClock where
  cached_time_ns : Int
  samples : Nat

/-- The FastClock constructor: take one clock reading and store it
(the refresher thread is then launched). -/
def FastClock.ctor (clock : Nat → Int) : FastClock :=
  { cached_time_ns := clock 0, samples := 1 }

/-- One iteration of FastClock::update_loop: read the high-resolution
clock and store the nanosecond count into cached_time_ns. -/
def FastClock.update_iteration (clock : Nat → Int) (s : FastClock) :
    FastClock :=
  { cached_time_ns := clock s.samples, samples := s.samples + 1 }

/-- FastClock::now(): the relaxed atomic load of cached_time_ns. -/
def FastClock.now (s : FastClock) : Int := s.cached_time_ns

/-- The clock state after construction followed by n update_loop
iterations. -/
def FastClock.after_updates (clock : Nat → Int) : Nat → FastClock
  | 0 => FastClock.ctor clock
  | n + 1 => FastClock.update_iteration clock (FastClock.after_updates clock n)

lemma after_updates_cached (clock : Nat → Int) (n : Nat) :
    (FastClock.after_updates clock n).cached_time_ns = clock n ∧
    (FastClock.after_updates clock n).samples = n + 1 := by
  induction n with
  | zero => exact ⟨rfl, rfl⟩
  | succ n ih =>
    simp [FastClock.after_updates, FastClock.update_iteration, ih.2]

/-- C8: for a single FastClock instance, two successive now() calls
return t1 then t2 with t2 >= t1: the first call observes the cache
after m refresher stores and the second, being later, after n >= m
stores (single-variable atomic coherence), and the refresher publishes
readings of the monotone OS clock in sampling order. -/
theorem fast_clock_monotone (clock : Nat → Int) (hmono : Monotone clock)
    (m n : Nat) (hmn : m ≤ n) :
    (FastClock.after_updates clock m).now ≤
      (FastClock.after_updates clock n).now := by
  rw [FastClock.now, FastClock.now, (after_updates_cached clock m).1,
    (after_updates_cached clock n).1]
  exact hmono hmn

/-- Witness for C8 with the concrete clock k with readings k and one
refresh between the two reads. -/
theorem fast_clock_monotone_witness :
    (FastClock.after_updates (fun k => (k : Int)) 0).now ≤
      (FastClock.after_updates (fun k => (k : Int)) 1).now :=
  fast_clock_monotone (fun k => (k : Int))
    (fun _ _ hab => Int.ofNat_le.mpr hab) 0 1 (by decide)

end hft
